import Mathlib

/-!
# Verification of the Arcane rarepairs scraper (`ao3.py`)

A shallow embedding of the pure logic of `ao3.py`:

* name normalisation (`reverse_names`, `is_multiple_name`),
* fandom disambiguation and tag building (`wrangle_fandom_tag`,
  `wrangle_relationship_tag`),
* the login status check (`login`),
* result-count parsing (`get_work_count`),
* the pair enumeration and the collection loop of the `__main__` block.

Python strings are modelled as Lean `String`; `str.split()` (split on runs
of whitespace, dropping empty pieces) and `' '.join` are modelled
explicitly on the underlying character lists so that the round-trip
properties of name reversal can be proved.
-/

/-- The champion roster from `ao3.py` (`champions`). -/
def champions : List String :=
  ["Caitlyn", "Ekko", "Heimerdinger", "Jayce", "Jinx", "Singed", "Vi", "Viktor"]

/-- The names that must never be split (`special_case_names`). -/
def special_case_names : List String :=
  ["Brothel Girl", "Local Cuisine Guy"]

/-- Accumulator-style splitter: models Python `str.split()` with no
arguments, which splits on runs of whitespace and drops empty pieces.
`acc` holds the (reversed) characters of the word currently being read. -/
def splitWsGo : List Char → List Char → List (List Char)
  | [], acc => if acc = [] then [] else [acc.reverse]
  | c :: cs, acc =>
    if c.isWhitespace then
      if acc = [] then splitWsGo cs [] else acc.reverse :: splitWsGo cs []
    else
      splitWsGo cs (c :: acc)

/-- The word list of a character list, as Python `str.split()` computes it. -/
def splitWs (cs : List Char) : List (List Char) := splitWsGo cs []

/-- Models Python `' '.join(words)`: interleave a single space between words. -/
def joinWs : List (List Char) → List Char
  | [] => []
  | [w] => w
  | w :: ws => w ++ ' ' :: joinWs ws

/-- `reverse_names` from `ao3.py`: special-case names are returned
unchanged, otherwise the space-separated words are reversed and re-joined
with single spaces (`' '.join(reversed(name.split()))`). -/
def reverse_names (name : String) : String :=
  if name ∈ special_case_names then name
  else ⟨joinWs ((splitWs name.data).reverse)⟩

/-- `is_multiple_name` from `ao3.py`: a special-case name never counts as
multiple; otherwise the name is multiple when it splits into more than one
word. -/
def is_multiple_name (name : String) : Bool :=
  if name ∈ special_case_names then false
  else (splitWs name.data).length > 1

/-- `wrangle_fandom_tag` from `ao3.py`: champions get the League suffix,
everyone else the Arcane suffix. -/
def wrangle_fandom_tag (name : String) : String :=
  if name ∈ champions then " (League of Legends)"
  else " (Arcane: League of Legends)"

/-- Lexicographic comparison of character lists by code point: this is how
Python compares strings (`s1 <= s2`). -/
def strLeChars : List Char → List Char → Bool
  | [], _ => true
  | _ :: _, [] => false
  | a :: as, b :: bs =>
    if a.toNat < b.toNat then true
    else if b.toNat < a.toNat then false
    else strLeChars as bs

/-- Python string comparison `a <= b` (code-point lexicographic). -/
def pyStrLe (a b : String) : Bool := strLeChars a.data b.data

/-- Python's `sorted((x, y), key=key)` on a two-element tuple: a stable
sort, so the pair is swapped exactly when the second key is strictly below
the first (ties keep the original argument order). -/
def sortPairBy (key : String → String) (p : String × String) : String × String :=
  if pyStrLe (key p.1) (key p.2) then p else (p.2, p.1)

/-- `wrangle_relationship_tag` from `ao3.py`: sort the two names by
`reverse_names`, look up both fandom suffixes, blank them out according to
the same-fandom / multi-word rules, and join with a slash. -/
def wrangle_relationship_tag (name1 name2 : String) : String :=
  let p := sortPairBy reverse_names (name1, name2)
  let fandom1 := wrangle_fandom_tag p.1
  let fandom2 := wrangle_fandom_tag p.2
  let fandoms :=
    if fandom1 = fandom2 then
      ("", if is_multiple_name p.1 || is_multiple_name p.2 then "" else fandom2)
    else
      ((if is_multiple_name p.1 then "" else fandom1),
       (if is_multiple_name p.2 then "" else fandom2))
  p.1 ++ fandoms.1 ++ "/" ++ p.2 ++ fandoms.2

/-- A row of `characters.csv`: a name and a gender string. -/
structure Character where
  name : String
  gender : String
  deriving DecidableEq

/-- A row of the output table before the `count` column is added:
`A`, `B`, `type` (the two genders joined by a slash) and `selfcest`
(whether the two names are equal), exactly as the `__main__` block
computes them. -/
structure Relationship where
  A : String
  B : String
  type : String
  selfcest : Bool
  deriving DecidableEq

/-- Builds one relationship row from a pair of characters, as the
`__main__` block does column-wise (`type = gender_A + '/' + gender_B`,
`selfcest = (A == B)`). -/
def mkRecord (c d : Character) : Relationship :=
  { A := c.name, B := d.name, type := c.gender ++ "/" ++ d.gender,
    selfcest := c.name == d.name }

/-- Insert a character into a gender-sorted list, keeping it sorted by
gender (Python string comparison on the gender field). -/
def insertByGender (c : Character) : List Character → List Character
  | [] => [c]
  | d :: ds => if pyStrLe c.gender d.gender then c :: d :: ds else d :: insertByGender c ds

/-- Models `characters.sort_values(['gender'])`: a sort of the roster by
the gender column.  Every claim below about the enumeration is invariant
under which gender-ordered permutation the sort produces. -/
def sortByGender : List Character → List Character
  | [] => []
  | c :: cs => insertByGender c (sortByGender cs)

/-- `itertools.combinations_with_replacement(l, 2)`: all index pairs
`i ≤ j` in lexicographic order. -/
def cwr {α : Type} : List α → List (α × α)
  | [] => []
  | x :: xs => ((x :: xs).map fun y => (x, y)) ++ cwr xs

/-- The relationship table the `__main__` block builds before scraping:
sort the roster by gender, enumerate unordered pairs with repetition, and
turn each pair into a row. -/
def enumerateRelationships (roster : List Character) : List Relationship :=
  (cwr (sortByGender roster)).map fun p => mkRecord p.1 p.2

deriving instance DecidableEq for Except

/-- The `h3.heading` element found inside the `div#main` of a search
response, if any; represented by its `get_text()` string. -/
structure MainDiv where
  heading : Option String
  deriving DecidableEq

/-- A search response: its HTTP status code, and the `div` with id `main`
of its body, if one exists. -/
structure SearchResponse where
  status_code : Nat
  mainDiv : Option MainDiv
  deriving DecidableEq

/-- The ways `get_work_count` can raise: the explicit `RateLimitedError`,
the `AttributeError` Python raises when `.find(...)` or `.match(...)`
returned `None` and is then dereferenced, and the `ValueError` of `int()`
on a digit-free string. -/
inductive ScrapeError
  | rateLimited
  | attributeError
  | valueError
  deriving DecidableEq

/-- `work_count_pattern.match(text)`: the regex `[0-9,]+` anchored at the
start of the string matches the longest non-empty prefix of digits and
commas, and fails (returns `None`) if that prefix is empty. -/
def work_count_match (s : String) : Option String :=
  let t := s.data.takeWhile fun c => c.isDigit || c == ','
  if t.isEmpty then none else some ⟨t⟩

/-- Python `int` on a non-empty string of decimal digits. -/
def digitsToNat (cs : List Char) : Nat :=
  cs.foldl (fun acc c => 10 * acc + (c.toNat - 48)) 0

/-- `get_work_count` from `ao3.py`, lines 172–185, with the HTTP exchange
abstracted into a `SearchResponse`: a 429 status raises
`RateLimitedError`; a missing `div#main` makes `main_div.find` raise
`AttributeError`; a missing heading yields count 0; a heading whose text
has no leading digit-or-comma prefix makes `.group(0)` raise
`AttributeError`; otherwise the matched prefix has its commas removed and
is parsed with `int()`, which raises `ValueError` when nothing is left. -/
def get_work_count (resp : SearchResponse) : Except ScrapeError Nat :=
  if resp.status_code = 429 then .error .rateLimited
  else
    match resp.mainDiv with
    | none => .error .attributeError
    | some d =>
      match d.heading with
      | none => .ok 0
      | some text =>
        match work_count_match text with
        | none => .error .attributeError
        | some numStr =>
          let digits := numStr.data.filter fun c => c ≠ ','
          if digits.isEmpty then .error .valueError
          else .ok (digitsToNat digits)

/-- The exception type of `login` (`LoginError` in `ao3.py`). -/
inductive LoginError
  | invalidCredentials
  deriving DecidableEq

/-- The decision `login` makes about the credential POST (lines 152–157
of `ao3.py`), with the HTTP exchange abstracted into the status code of
the POST response: any status other than 302 raises `LoginError`,
otherwise the session is returned. -/
def login (post_status_code : Nat) : Except LoginError Unit :=
  if post_status_code ≠ 302 then .error .invalidCredentials else .ok ()

/-- Follows the spec's words, for comparison with `login`: an "HTTP
redirect response" is one whose status code is in the 3xx Redirection
class. -/
def specHttpRedirect (status : Nat) : Bool :=
  decide (300 ≤ status) && decide (status < 400)

/-- What one `get_work_count` call produces, seen from the collection
loop: a count, or the `RateLimitedError`. -/
inductive FetchOutcome
  | ok (n : Nat)
  | rateLimited
  deriving DecidableEq

/-- The collection loop of the `__main__` block (lines 227–241): walk the
(A, B) pairs in order, appending each fetched count to `work_counts`; on
`RateLimitedError`, switch the output filename to `temp.csv` and stop.
Returns the accumulated counts and the final `output_filename`. -/
def collectCounts (fetch : String → String → FetchOutcome) :
    List (String × String) → List Nat × String
  | [] => ([], "relationships.csv")
  | (a, b) :: rest =>
    match fetch a b with
    | .rateLimited => ([], "temp.csv")
    | .ok n =>
      let r := collectCounts fetch rest
      (n :: r.1, r.2)

/-- The error pandas raises at `relationships['count'] = work_counts`
when the list being assigned is shorter than the DataFrame's index
(`ValueError: Length of values does not match length of index`). -/
inductive PandasError
  | lengthMismatch
  deriving DecidableEq

/-- The tail of the `__main__` block (lines 227–244): run the collection
loop over the enumerated pairs, then assign the `count` column and write
the output file.  The column assignment — and hence the file write that
follows it — succeeds only when the collected list has exactly one count
per row; otherwise pandas raises and nothing is written. -/
def runMain (roster : List Character) (fetch : String → String → FetchOutcome) :
    Except PandasError (String × List (Relationship × Nat)) :=
  let records := enumerateRelationships roster
  let res := collectCounts fetch (records.map fun r => (r.A, r.B))
  if res.1.length = records.length then .ok (res.2, records.zip res.1)
  else .error .lengthMismatch

example : reverse_names "Vander Smith" = "Smith Vander" := by decide
example : reverse_names "Brothel Girl" = "Brothel Girl" := by decide
example : wrangle_relationship_tag "Vi" "Sevika" =
    "Sevika (Arcane: League of Legends)/Vi (League of Legends)" := by decide
example : get_work_count ⟨200, some ⟨some "1,234 Found"⟩⟩ = .ok 1234 := by decide
example : get_work_count ⟨429, some ⟨none⟩⟩ = .error .rateLimited := by decide

/-- C1: on a rate-limit abort the loop does stop and does switch the
output name to `temp.csv`, keeping exactly the counts collected before
the abort — but the subsequent `relationships['count'] = work_counts`
assigns a list shorter than the table and pandas raises, so no file is
written at all.  Evaluated here at a two-character roster whose second
search is rate limited: the loop state says `temp.csv` with the one
collected count, yet the run ends in the length-mismatch error instead of
a write. -/
theorem c1_abort_loses_partial_results :
    collectCounts (fun a b => if a = b then .ok 7 else .rateLimited)
        ((enumerateRelationships [⟨"Vi", "f"⟩, ⟨"Jayce", "m"⟩]).map fun r => (r.A, r.B)) =
      ([7], "temp.csv") ∧
    runMain [⟨"Vi", "f"⟩, ⟨"Jayce", "m"⟩]
        (fun a b => if a = b then .ok 7 else .rateLimited) =
      .error .lengthMismatch :=
  ⟨by decide, by decide⟩

/-- C2 counterexample: Vi and Jayce are both champions, so they fall in
the same disambiguation bucket and the tag is not the cross-fandom
both-suffixed form the claim expects. -/
theorem c2_counterexample :
    wrangle_relationship_tag "Vi" "Jayce" ≠
      "Jayce (League of Legends)/Vi (League of Legends)" := by decide

/-- C2 (amended): for the roster `[("Vi","f"),("Jayce","m")]`, the tag for
`("Vi","Jayce")` is the same-fandom single-word form, with the first
suffix suppressed and one overall suffix at the end, in last-name-sorted
order: `"Jayce/Vi (League of Legends)"`. -/
theorem c2_amended_tag :
    wrangle_relationship_tag "Vi" "Jayce" = "Jayce/Vi (League of Legends)" := by decide

/-- C7: whenever the search response is not rate limited and its `div#main`
is present but holds no results heading, `get_work_count` returns count 0
rather than raising. -/
theorem c7_missing_heading_is_zero (resp : SearchResponse) (d : MainDiv)
    (h429 : resp.status_code ≠ 429) (hmain : resp.mainDiv = some d)
    (hheading : d.heading = none) :
    get_work_count resp = .ok 0 := by
  simp [get_work_count, h429, hmain, hheading]

/-- Witness for C7 at a concrete response. -/
theorem c7_missing_heading_is_zero_witness :
    get_work_count ⟨200, some ⟨none⟩⟩ = .ok 0 :=
  c7_missing_heading_is_zero ⟨200, some ⟨none⟩⟩ ⟨none⟩ (by decide) rfl rfl

/-- C9 counterexample: HTTP 301 is a redirect response, yet `login`
raises `LoginError` on it, so success is not equivalent to receiving a
redirect. -/
theorem c9_counterexample :
    ¬ ((login 301 = .ok ()) ↔ specHttpRedirect 301 = true) := by decide

/-- C9 (amended): `login` succeeds exactly when the credential POST
returns HTTP status 302; every other status — any other redirect status
included — raises `LoginError`. -/
theorem c9_amended_login (status : Nat) :
    login status = .ok () ↔ status = 302 := by
  by_cases h : status = 302 <;> simp [login, h]

/-- Witness for C9 (amended) at status 302. -/
theorem c9_amended_login_witness : login 302 = .ok () :=
  (c9_amended_login 302).mpr rfl

/-- C10: `get_work_count` only produces a count when the `div#main` is
present, and there are concrete response bodies on which it raises: one
with no `div#main` at all, and one whose heading text does not begin with
a digit or comma. -/
theorem c10_parse_partiality :
    (∀ (resp : SearchResponse) (n : Nat), get_work_count resp = .ok n →
        resp.mainDiv.isSome = true) ∧
    get_work_count ⟨200, none⟩ = .error .attributeError ∧
    get_work_count ⟨200, some ⟨some "About 1,234"⟩⟩ = .error .attributeError := by
  refine ⟨?_, by decide, by decide⟩
  intro resp n h
  unfold get_work_count at h
  by_cases h429 : resp.status_code = 429
  · rw [if_pos h429] at h
    exact absurd h (by simp)
  · rw [if_neg h429] at h
    cases hm : resp.mainDiv with
    | none => rw [hm] at h; exact absurd h (by simp)
    | some d => simp [hm]

/-- Witness for C10: the universally quantified part applied at a concrete
response that does produce a count. -/
theorem c10_parse_partiality_witness :
    (⟨200, some ⟨some "17 works"⟩⟩ : SearchResponse).mainDiv.isSome = true :=
  c10_parse_partiality.1 ⟨200, some ⟨some "17 works"⟩⟩ 17 (by decide)

/-- The disambiguation-suppression policy exactly as §4.2 of the spec
words it, applied to an already ordered pair of names: same suffix —
suppress the first, and also the second when either name is multi-word;
different suffixes — suppress the suffix of each multi-word name only. -/
def specSuffixes (n1 n2 : String) : String × String :=
  let s1 := wrangle_fandom_tag n1
  let s2 := wrangle_fandom_tag n2
  if s1 = s2 then
    ("", if is_multiple_name n1 || is_multiple_name n2 then "" else s2)
  else
    ((if is_multiple_name n1 then "" else s1),
     (if is_multiple_name n2 then "" else s2))

/-- The tag §4.2 of the spec describes: order the two names by
`reverse_names` ascending with ties keeping argument order, apply the
suppression policy, and join the suffixed names with a slash. -/
def specBuildTag (x y : String) : String :=
  let p := sortPairBy reverse_names (x, y)
  let s := specSuffixes p.1 p.2
  p.1 ++ s.1 ++ "/" ++ p.2 ++ s.2

/-- Two single-word names with different fandom suffixes both keep their
suffixes under the spec policy. -/
theorem specSuffixes_cross_single (n1 n2 : String)
    (h1 : is_multiple_name n1 = false) (h2 : is_multiple_name n2 = false)
    (hf : wrangle_fandom_tag n1 ≠ wrangle_fandom_tag n2) :
    specSuffixes n1 n2 = (wrangle_fandom_tag n1, wrangle_fandom_tag n2) := by
  simp [specSuffixes, h1, h2, hf]

/-- Two multi-word names lose both suffixes under the spec policy. -/
theorem specSuffixes_both_multi (n1 n2 : String)
    (h1 : is_multiple_name n1 = true) (h2 : is_multiple_name n2 = true) :
    specSuffixes n1 n2 = ("", "") := by
  by_cases hf : wrangle_fandom_tag n1 = wrangle_fandom_tag n2 <;>
    simp [specSuffixes, h1, h2, hf]

/-- `sortPairBy` returns one of the two arrangements of its input pair. -/
theorem sortPairBy_cases (key : String → String) (x y : String) :
    sortPairBy key (x, y) = (x, y) ∨ sortPairBy key (x, y) = (y, x) := by
  unfold sortPairBy
  by_cases h : pyStrLe (key x) (key y) = true <;> simp [h]

/-- C3: `wrangle_relationship_tag` implements the spec's
disambiguation-suppression policy: it coincides with the tag built by the
§4.2 rules, two single-word names from different buckets both keep their
suffixes, and two multi-word names end up with no suffix at all. -/
theorem c3_suppression_policy :
    (∀ a b : String, wrangle_relationship_tag a b = specBuildTag a b) ∧
    (∀ a b : String, is_multiple_name a = false → is_multiple_name b = false →
      wrangle_fandom_tag a ≠ wrangle_fandom_tag b →
      wrangle_relationship_tag a b =
        (sortPairBy reverse_names (a, b)).1 ++
          wrangle_fandom_tag (sortPairBy reverse_names (a, b)).1 ++ "/" ++
          (sortPairBy reverse_names (a, b)).2 ++
          wrangle_fandom_tag (sortPairBy reverse_names (a, b)).2) ∧
    (∀ a b : String, is_multiple_name a = true → is_multiple_name b = true →
      wrangle_relationship_tag a b =
        (sortPairBy reverse_names (a, b)).1 ++ "/" ++
          (sortPairBy reverse_names (a, b)).2) := by
  refine ⟨fun a b => rfl, fun a b ha hb hf => ?_, fun a b ha hb => ?_⟩
  · have e : wrangle_relationship_tag a b = specBuildTag a b := rfl
    rw [e]
    unfold specBuildTag
    rcases sortPairBy_cases reverse_names a b with h | h <;> rw [h]
    · simp [specSuffixes_cross_single a b ha hb hf]
    · simp [specSuffixes_cross_single b a hb ha (Ne.symm hf)]
  · have e : wrangle_relationship_tag a b = specBuildTag a b := rfl
    rw [e]
    unfold specBuildTag
    rcases sortPairBy_cases reverse_names a b with h | h <;> rw [h]
    · simp [specSuffixes_both_multi a b ha hb]
    · simp [specSuffixes_both_multi b a hb ha]

/-- Witness for C3: the cross-bucket single-word conjunct at Vi (a
champion) and Sevika (a non-champion). -/
theorem c3_suppression_policy_witness :
    (is_multiple_name "Vi" = false ∧ is_multiple_name "Sevika" = false ∧
      wrangle_fandom_tag "Vi" ≠ wrangle_fandom_tag "Sevika") ∧
    wrangle_relationship_tag "Vi" "Sevika" =
      (sortPairBy reverse_names ("Vi", "Sevika")).1 ++
        wrangle_fandom_tag (sortPairBy reverse_names ("Vi", "Sevika")).1 ++ "/" ++
        (sortPairBy reverse_names ("Vi", "Sevika")).2 ++
        wrangle_fandom_tag (sortPairBy reverse_names ("Vi", "Sevika")).2 :=
  ⟨⟨by decide, by decide, by decide⟩,
    c3_suppression_policy.2.1 "Vi" "Sevika" (by decide) (by decide) (by decide)⟩

/-- Characters with equal code points are equal. -/
theorem charToNat_inj {a b : Char} (h : a.toNat = b.toNat) : a = b :=
  Char.ext (UInt32.ext h)

/-- `strLeChars` is total: one of the two comparisons always holds. -/
theorem strLeChars_total (as : List Char) :
    ∀ bs : List Char, strLeChars as bs = true ∨ strLeChars bs as = true := by
  induction as with
  | nil => intro bs; left; rfl
  | cons a as ih =>
    intro bs
    cases bs with
    | nil => right; rfl
    | cons b bs =>
      by_cases hab : a.toNat < b.toNat
      · left; simp [strLeChars, hab]
      · by_cases hba : b.toNat < a.toNat
        · right; simp [strLeChars, hba]
        · rcases ih bs with h | h
          · left; simp [strLeChars, hab, hba, h]
          · right; simp [strLeChars, hab, hba, h]

/-- `strLeChars` is antisymmetric. -/
theorem strLeChars_antisymm :
    ∀ {as bs : List Char}, strLeChars as bs = true → strLeChars bs as = true →
      as = bs := by
  intro as
  induction as with
  | nil =>
    intro bs h1 h2
    cases bs with
    | nil => rfl
    | cons b bs => exact absurd h2 (by simp [strLeChars])
  | cons a as ih =>
    intro bs h1 h2
    cases bs with
    | nil => exact absurd h1 (by simp [strLeChars])
    | cons b bs =>
      by_cases hab : a.toNat < b.toNat
      · rw [strLeChars, if_neg (by omega), if_pos hab] at h2
        exact absurd h2 (by simp)
      · by_cases hba : b.toNat < a.toNat
        · rw [strLeChars, if_neg hab, if_pos hba] at h1
          exact absurd h1 (by simp)
        · have hc : a = b := charToNat_inj (by omega)
          subst hc
          rw [strLeChars, if_neg hab, if_neg hba] at h1 h2
          rw [ih h1 h2]

/-- Python string comparison is total. -/
theorem pyStrLe_total (a b : String) :
    pyStrLe a b = true ∨ pyStrLe b a = true :=
  strLeChars_total a.data b.data

/-- Python string comparison is antisymmetric. -/
theorem pyStrLe_antisymm {a b : String}
    (h1 : pyStrLe a b = true) (h2 : pyStrLe b a = true) : a = b := by
  have h := strLeChars_antisymm h1 h2
  cases a; cases b
  exact congrArg String.mk h

/-- Swapping the input pair does not change the sorted pair when the two
keys differ. -/
theorem sortPairBy_swap (key : String → String) (x y : String)
    (h : key x ≠ key y) :
    sortPairBy key (y, x) = sortPairBy key (x, y) := by
  by_cases hxy : pyStrLe (key x) (key y) = true
  · have hyx : pyStrLe (key y) (key x) = false := by
      rcases hh : pyStrLe (key y) (key x) with _ | _
      · rfl
      · exact absurd (pyStrLe_antisymm hh hxy) (Ne.symm h)
    simp [sortPairBy, hxy, hyx]
  · have hxyf : pyStrLe (key x) (key y) = false := by
      simpa using hxy
    have hyx : pyStrLe (key y) (key x) = true := by
      rcases pyStrLe_total (key x) (key y) with hh | hh
      · exact absurd hh hxy
      · exact hh
    simp [sortPairBy, hxyf, hyx]

/-- C4 counterexample: "Girl Brothel" reverses to the special-cased
"Brothel Girl", so the two names share a sort key, the stable sort keeps
the argument order, and the two argument orders produce different tags. -/
theorem c4_counterexample :
    wrangle_relationship_tag "Girl Brothel" "Brothel Girl" ≠
      wrangle_relationship_tag "Brothel Girl" "Girl Brothel" := by decide

/-- C4 (amended): the tag builder is symmetric in its two arguments
whenever the two names have distinct `reverse_names` sort keys or are the
same name; when two distinct names tie on the sort key the output keeps
the argument order, so symmetry can fail there. -/
theorem c4_amended_symmetric (x y : String)
    (h : reverse_names x ≠ reverse_names y ∨ x = y) :
    wrangle_relationship_tag x y = wrangle_relationship_tag y x := by
  rcases h with hne | rfl
  · unfold wrangle_relationship_tag
    rw [sortPairBy_swap reverse_names x y hne]
  · rfl

/-- Witness for C4 (amended) at a pair with distinct sort keys. -/
theorem c4_amended_symmetric_witness :
    (reverse_names "Vi" ≠ reverse_names "Jayce" ∨ ("Vi" : String) = "Jayce") ∧
    wrangle_relationship_tag "Vi" "Jayce" = wrangle_relationship_tag "Jayce" "Vi" :=
  ⟨Or.inl (by decide), c4_amended_symmetric "Vi" "Jayce" (Or.inl (by decide))⟩

/-- Feeding a whitespace-free word into the splitter just moves it into
the accumulator. -/
theorem splitWsGo_word (w : List Char) :
    ∀ (cs acc : List Char), (∀ c ∈ w, c.isWhitespace = false) →
      splitWsGo (w ++ cs) acc = splitWsGo cs (w.reverse ++ acc) := by
  induction w with
  | nil => intro cs acc _; simp
  | cons c w ih =>
    intro cs acc hw
    have hc : c.isWhitespace = false := hw c (by simp)
    show splitWsGo (c :: (w ++ cs)) acc = _
    rw [splitWsGo, if_neg (by simp [hc])]
    rw [ih cs (c :: acc) (fun x hx => hw x (by simp [hx]))]
    simp

/-- Every word the splitter produces is non-empty and whitespace-free,
provided the accumulator only holds non-whitespace characters. -/
theorem splitWsGo_good :
    ∀ (cs acc : List Char), (∀ c ∈ acc, c.isWhitespace = false) →
      ∀ w ∈ splitWsGo cs acc, w ≠ [] ∧ ∀ c ∈ w, c.isWhitespace = false := by
  intro cs
  induction cs with
  | nil =>
    intro acc hacc w hw
    rw [splitWsGo] at hw
    by_cases h : acc = ([] : List Char)
    · rw [if_pos h] at hw; exact absurd hw (by simp)
    · rw [if_neg h] at hw
      have hw' : w = acc.reverse := by simpa using hw
      subst hw'
      exact ⟨by simpa using h, fun c hc => hacc c (List.mem_reverse.mp hc)⟩
  | cons c cs ih =>
    intro acc hacc w hw
    rw [splitWsGo] at hw
    by_cases hws : c.isWhitespace = true
    · rw [if_pos (by simp [hws])] at hw
      by_cases h : acc = ([] : List Char)
      · rw [if_pos h] at hw
        exact ih [] (by simp) w hw
      · rw [if_neg h] at hw
        rcases List.mem_cons.mp hw with rfl | hw'
        · exact ⟨by simpa using h, fun x hx => hacc x (List.mem_reverse.mp hx)⟩
        · exact ih [] (by simp) w hw'
    · rw [if_neg (by simpa using hws)] at hw
      refine ih (c :: acc) ?_ w hw
      intro x hx
      rcases List.mem_cons.mp hx with rfl | hx
      · simpa using hws
      · exact hacc x hx

/-- Every word of `splitWs` is non-empty and whitespace-free. -/
theorem splitWs_good (cs : List Char) :
    ∀ w ∈ splitWs cs, w ≠ [] ∧ ∀ c ∈ w, c.isWhitespace = false :=
  splitWsGo_good cs [] (by simp)

/-- Round trip: joining non-empty whitespace-free words with single spaces
and splitting again recovers exactly the word list. -/
theorem splitWs_joinWs :
    ∀ ws : List (List Char),
      (∀ w ∈ ws, w ≠ [] ∧ ∀ c ∈ w, c.isWhitespace = false) →
      splitWs (joinWs ws) = ws := by
  intro ws
  induction ws with
  | nil => intro _; rfl
  | cons w ws ih =>
    intro h
    rcases h w (by simp) with ⟨hne, hchars⟩
    have hwr : w.reverse ≠ [] := by simpa using hne
    cases ws with
    | nil =>
      show splitWsGo w [] = [w]
      have hw := splitWsGo_word w [] [] hchars
      simp only [List.append_nil] at hw
      rw [hw, splitWsGo, if_neg hwr, List.reverse_reverse]
    | cons w2 ws2 =>
      show splitWsGo (w ++ ' ' :: joinWs (w2 :: ws2)) [] = w :: w2 :: ws2
      rw [splitWsGo_word w _ [] hchars]
      simp only [List.append_nil]
      rw [splitWsGo, if_pos (by decide), if_neg hwr, List.reverse_reverse]
      exact congrArg (w :: ·) (ih fun x hx => h x (by simp [hx]))

/-- A name already in the normal form that `' '.join(name.split())`
produces: words separated by single spaces, no leading or trailing
whitespace. -/
def normalizedName (s : String) : Prop :=
  s.data = joinWs (splitWs s.data)

instance decNormalizedName (s : String) : Decidable (normalizedName s) :=
  inferInstanceAs (Decidable (s.data = joinWs (splitWs s.data)))

/-- C5 counterexample: double application of `reverse_names` is not the
identity on every name.  "Girl Brothel" reverses into the exception set
and stays there, and a name with a doubled space loses it. -/
theorem c5_counterexample :
    reverse_names (reverse_names "Girl Brothel") ≠ "Girl Brothel" ∧
    reverse_names (reverse_names "Vander  Smith") ≠ "Vander  Smith" :=
  ⟨by decide, by decide⟩

/-- C5 (amended): for every whitespace-normalized name that either is in
the exception set or does not reverse into it, applying `reverse_names`
twice returns the original name; and on every exception-set name a single
application is already the identity. -/
theorem c5_amended_involution :
    (∀ s : String, normalizedName s →
      (s ∈ special_case_names ∨ reverse_names s ∉ special_case_names) →
      reverse_names (reverse_names s) = s) ∧
    (∀ s ∈ special_case_names, reverse_names s = s) := by
  constructor
  · intro s hnorm hcase
    by_cases hs : s ∈ special_case_names
    · simp [reverse_names, hs]
    · have hrs : reverse_names s ∉ special_case_names := by
        rcases hcase with h | h
        · exact absurd h hs
        · exact h
      have e1 : reverse_names s = ⟨joinWs ((splitWs s.data).reverse)⟩ := by
        rw [reverse_names, if_neg hs]
      rw [e1] at hrs ⊢
      rw [reverse_names, if_neg hrs]
      show (⟨joinWs ((splitWs (joinWs ((splitWs s.data).reverse))).reverse)⟩ : String) = s
      rw [splitWs_joinWs ((splitWs s.data).reverse)
        (fun w hw => splitWs_good s.data w (List.mem_reverse.mp hw))]
      rw [List.reverse_reverse]
      exact congrArg String.mk hnorm.symm
  · intro s hs
    rw [reverse_names, if_pos hs]

/-- Witness for C5 (amended) at a normalized two-word name outside the
exception set. -/
theorem c5_amended_involution_witness :
    (normalizedName "Vander Smith" ∧
      (("Vander Smith" : String) ∈ special_case_names ∨
        reverse_names "Vander Smith" ∉ special_case_names)) ∧
    reverse_names (reverse_names "Vander Smith") = "Vander Smith" :=
  ⟨⟨by decide, Or.inr (by decide)⟩,
    c5_amended_involution.1 "Vander Smith" (by decide) (Or.inr (by decide))⟩

/-- Inserting by gender is a permutation of consing. -/
theorem insertByGender_perm (c : Character) (l : List Character) :
    List.Perm (insertByGender c l) (c :: l) := by
  induction l with
  | nil => exact List.Perm.refl _
  | cons d ds ih =>
    rw [insertByGender]
    by_cases h : pyStrLe c.gender d.gender = true
    · rw [if_pos h]
    · rw [if_neg h]
      exact (ih.cons d).trans (List.Perm.swap c d ds)

/-- The gender sort is a permutation of the roster. -/
theorem sortByGender_perm (l : List Character) : List.Perm (sortByGender l) l := by
  induction l with
  | nil => exact List.Perm.refl _
  | cons c cs ih =>
    exact (insertByGender_perm c (sortByGender cs)).trans (ih.cons c)

/-- `combinations_with_replacement` over `n` elements yields
`n (n + 1) / 2` pairs (stated multiplied out to stay in `Nat`). -/
theorem cwr_length_two {α : Type} (l : List α) :
    2 * (cwr l).length = l.length * (l.length + 1) := by
  induction l with
  | nil => rfl
  | cons x xs ih =>
    rw [cwr]
    simp only [List.length_append, List.length_map, List.length_cons]
    have h2 : 2 * ((xs.length + 1) + (cwr xs).length) =
        2 * (xs.length + 1) + 2 * (cwr xs).length := by ring
    rw [h2, ih]
    ring

/-- When all names are distinct, exactly one pair per roster element is a
self-pair. -/
theorem cwr_selfcount (l : List Character) (h : (l.map Character.name).Nodup) :
    (cwr l).countP (fun p => p.1.name == p.2.name) = l.length := by
  induction l with
  | nil => rfl
  | cons x xs ih =>
    rw [cwr, List.countP_append, List.countP_map]
    rw [List.map_cons, List.nodup_cons] at h
    have hhead :
        List.countP ((fun p => p.1.name == p.2.name) ∘ fun y => (x, y)) (x :: xs) = 1 := by
      rw [List.countP_cons]
      have hz : List.countP ((fun p => p.1.name == p.2.name) ∘ fun y => (x, y)) xs = 0 := by
        refine List.countP_eq_zero.mpr ?_
        intro y hy hbeq
        exact h.1 (List.mem_map.mpr ⟨y, hy, (eq_of_beq hbeq).symm⟩)
      rw [hz]
      simp
    rw [hhead, ih h.2]
    simp [Nat.add_comm]

/-- C6: over any roster with pairwise distinct names, the enumeration
produces exactly `n (n + 1) / 2` relationship rows, of which exactly `n`
are self-pairs. -/
theorem c6_enumeration (roster : List Character)
    (h : (roster.map Character.name).Nodup) :
    (enumerateRelationships roster).length = roster.length * (roster.length + 1) / 2 ∧
    ((enumerateRelationships roster).filter fun r => r.selfcest).length = roster.length := by
  have hperm : List.Perm (sortByGender roster) roster := sortByGender_perm roster
  have hlen : (sortByGender roster).length = roster.length := hperm.length_eq
  have hnodup : ((sortByGender roster).map Character.name).Nodup :=
    ((hperm.map Character.name).nodup_iff).mpr h
  constructor
  · have h2 := cwr_length_two (sortByGender roster)
    rw [hlen] at h2
    rw [enumerateRelationships, List.length_map]
    omega
  · rw [enumerateRelationships, ← List.countP_eq_length_filter, List.countP_map]
    have he : (cwr (sortByGender roster)).countP
        ((fun r => r.selfcest) ∘ fun p => mkRecord p.1 p.2) =
        (cwr (sortByGender roster)).countP (fun p => p.1.name == p.2.name) := rfl
    rw [he, cwr_selfcount _ hnodup, hlen]

/-- Witness for C6 at a concrete two-character roster. -/
theorem c6_enumeration_witness :
    (([⟨"Vi", "f"⟩, ⟨"Jayce", "m"⟩] : List Character).map Character.name).Nodup ∧
    (enumerateRelationships [⟨"Vi", "f"⟩, ⟨"Jayce", "m"⟩]).length = 2 * (2 + 1) / 2 ∧
    ((enumerateRelationships [⟨"Vi", "f"⟩, ⟨"Jayce", "m"⟩]).filter fun r => r.selfcest).length = 2 :=
  ⟨by decide, (c6_enumeration [⟨"Vi", "f"⟩, ⟨"Jayce", "m"⟩] (by decide)).1,
    (c6_enumeration [⟨"Vi", "f"⟩, ⟨"Jayce", "m"⟩] (by decide)).2⟩

/-- C8 counterexample: rows are emitted in gender-sorted roster order, not
sorted-last-name order — with Vi before Ekko (f before m), the row
(Vi, Ekko) has A after B in `reverse_names` order. -/
theorem c8_counterexample :
    ¬ ∀ r ∈ enumerateRelationships [⟨"Vi", "f"⟩, ⟨"Ekko", "m"⟩],
        pyStrLe (reverse_names r.A) (reverse_names r.B) = true := by decide

/-- Every pair the enumeration emits is either a self-pair of a roster
element or an order-preserving selection of two roster elements. -/
theorem cwr_order {α : Type} :
    ∀ (l : List α) (p : α × α), p ∈ cwr l →
      (p.1 = p.2 ∧ p.1 ∈ l) ∨ [p.1, p.2].Sublist l := by
  intro l
  induction l with
  | nil => intro p hp; exact absurd hp (by simp [cwr])
  | cons x xs ih =>
    intro p hp
    rw [cwr, List.mem_append] at hp
    rcases hp with hp | hp
    · rcases List.mem_map.mp hp with ⟨y, hy, rfl⟩
      rcases List.mem_cons.mp hy with rfl | hy
      · exact Or.inl ⟨rfl, by simp⟩
      · exact Or.inr (List.Sublist.cons₂ x (List.singleton_sublist.mpr hy))
    · rcases ih p hp with ⟨he, hm⟩ | hs
      · exact Or.inl ⟨he, List.mem_cons_of_mem x hm⟩
      · exact Or.inr (hs.cons x)

/-- C8 (amended): every emitted row comes from a pair of characters taken
in gender-sorted roster order (a self-pair, or two elements in list
order) — the display order of `A` and `B` is roster order, not
sorted-last-name order. -/
theorem c8_amended_order (roster : List Character) (r : Relationship)
    (hr : r ∈ enumerateRelationships roster) :
    ∃ c d : Character, r = mkRecord c d ∧
      ((c = d ∧ c ∈ sortByGender roster) ∨ [c, d].Sublist (sortByGender roster)) := by
  rcases List.mem_map.mp hr with ⟨p, hp, rfl⟩
  exact ⟨p.1, p.2, rfl, cwr_order _ p hp⟩

/-- Witness for C8 (amended) at a concrete roster and row. -/
theorem c8_amended_order_witness :
    ∃ c d : Character, mkRecord ⟨"Vi", "f"⟩ ⟨"Ekko", "m"⟩ = mkRecord c d ∧
      ((c = d ∧ c ∈ sortByGender [⟨"Vi", "f"⟩, ⟨"Ekko", "m"⟩]) ∨
        [c, d].Sublist (sortByGender [⟨"Vi", "f"⟩, ⟨"Ekko", "m"⟩])) :=
  c8_amended_order [⟨"Vi", "f"⟩, ⟨"Ekko", "m"⟩]
    (mkRecord ⟨"Vi", "f"⟩ ⟨"Ekko", "m"⟩) (by decide)
